import Mathlib

/-!
Shallow embedding of the claude-merge-tool merge core: the canonical
configuration model, the priority comparator, the priority-based merge
engine (standard and template-substitution modes), the placeholder
replacement helpers, and the merge strategies.  Go strings are modelled
as lists of characters (faithful for valid UTF-8, where a substring
match can never start mid-codepoint), Go `int` as `Int`, Go nilable
maps as `Option` of an association list (Go map iteration order is
unspecified; the association-list order stands in for it), and Go
errors as an explicit error type.  The `debug` flag of the merger only
controls printing and is omitted.
-/

set_option maxRecDepth 10000

namespace CM

/-- Go strings, modelled as lists of characters. -/
abbrev GoString := List Char

/-- Shorthand to build a `GoString` from a literal. -/
def gstr (s : String) : GoString := s.toList

/-- A Go `map[string]T` value, `none` standing for a nil map. -/
abbrev GoMap (α : Type) := Option (List (GoString × α))

/-- Go map read `m[k]` (first binding wins; real Go maps have unique keys). -/
def lookupA {α : Type} : List (GoString × α) → GoString → Option α
  | [], _ => none
  | (k2, v) :: rest, k => if k2 = k then some v else lookupA rest k

/-- Go map write `m[k] = v`: replace the binding if present, else add it. -/
def setA {α : Type} : List (GoString × α) → GoString → α → List (GoString × α)
  | [], k, v => [(k, v)]
  | (k2, v2) :: rest, k, v =>
    if k2 = k then (k, v) :: rest else (k2, v2) :: setA rest k v

/-- `config.FileFormat`. -/
inductive FileFormat where
  | FormatTOML
  | FormatYAML
  | FormatMarkdown
deriving DecidableEq

/-- `config.PriorityType`: none < relative < explicit. -/
inductive PriorityType where
  | none
  | relative
  | explicit
deriving DecidableEq

/-- `config.Priority`: a priority kind plus an integer magnitude. -/
structure Priority where
  type : PriorityType
  value : Int
deriving DecidableEq

/-- `config.Metadata` (the Go field `Extends` is `extendsRef` here,
`extends` being reserved in Lean). -/
structure Metadata where
  title : GoString
  description : GoString
  version : GoString
  language : GoString
  extendsRef : GoString
  priority : Priority
deriving DecidableEq

/-- `config.Section`. -/
structure Section where
  order : Int
  parent : GoString
  mergeID : GoString
  content : GoString
  mergePoints : List GoString
  priority : Priority
deriving DecidableEq

/-- `config.MergePoint`. -/
structure MergePoint where
  placeholder : GoString
  default : GoString
  priority : Priority
deriving DecidableEq

/-- `config.MergeTarget`. -/
structure MergeTarget where
  strategy : GoString
  content : GoString
  priority : Priority
deriving DecidableEq

/-- `config.Config`. -/
structure Config where
  metadata : Metadata
  sections : GoMap Section
  mergePoints : GoMap MergePoint
  mergeTargets : GoMap MergeTarget
  sourceFile : GoString
  sourceFormat : FileFormat
deriving DecidableEq

/-- `Priority.TakesPrecedenceOver`: does this priority strictly beat another. -/
def Priority.TakesPrecedenceOver (p other : Priority) : Bool :=
  -- Explicit always beats relative or none
  if p.type = PriorityType.explicit ∧ other.type ≠ PriorityType.explicit then true
  else if other.type = PriorityType.explicit ∧ p.type ≠ PriorityType.explicit then false
  -- Same type, compare values (higher wins)
  else if p.type = other.type then decide (p.value > other.value)
  -- Relative beats none
  else decide (p.type = PriorityType.relative ∧ other.type = PriorityType.none)

/-- `Priority.TakesPrecedenceOverOrEqual`: beats or equals, used for file
order precedence (the final none-vs-none branch is kept even though the
same-type branch above it already covers that case). -/
def Priority.TakesPrecedenceOverOrEqual (p other : Priority) : Bool :=
  if p.type = PriorityType.explicit ∧ other.type ≠ PriorityType.explicit then true
  else if other.type = PriorityType.explicit ∧ p.type ≠ PriorityType.explicit then false
  else if p.type = other.type then decide (p.value ≥ other.value)
  else if p.type = PriorityType.relative ∧ other.type = PriorityType.none then true
  else if p.type = PriorityType.none ∧ other.type = PriorityType.none then true
  else false

/-- `merger.MergeStrategy` is a Go string type. -/
abbrev MergeStrategy := GoString

/-- `merger.ApplyStrategy`: combine old and new content under a strategy. -/
def ApplyStrategy (strategy : MergeStrategy) (old new : GoString) : GoString :=
  if strategy = gstr "replace" then new
  else if strategy = gstr "append" then
    if old = [] then new else old ++ gstr "\n" ++ new
  else if strategy = gstr "prepend" then
    if old = [] then new else new ++ gstr "\n" ++ old
  else new  -- Default to replace

/-- `strings.Index`: index of the first occurrence of `pat` in `s`
(character index; byte and character indices agree for the decomposition
of valid UTF-8), or `none` (Go: -1) when absent. -/
def goIndex (s pat : GoString) : Option Nat :=
  if pat.isPrefixOf s then some 0
  else
    match s with
    | [] => none
    | _ :: rest => (goIndex rest pat).map (· + 1)

/-- `strings.Contains`. -/
def goContains (s pat : GoString) : Bool := (goIndex s pat).isSome

/-- `strings.Split(s, "\n")` (the only separator the merger splits on). -/
def splitNl : GoString → List GoString
  | [] => [[]]
  | c :: rest =>
    if c = '\n' then [] :: splitNl rest
    else
      match splitNl rest with
      | [] => [[c]]
      | h :: t => (c :: h) :: t

/-- `strings.Join(lines, "\n")`. -/
def joinNl (lines : List GoString) : GoString := List.intercalate (gstr "\n") lines

/-- `strings.TrimSpace` (ASCII whitespace; Go also trims the rarer
Unicode space characters, which never occur in the inputs of the merger). -/
def goTrimSpace (s : GoString) : GoString :=
  ((s.dropWhile Char.isWhitespace).reverse.dropWhile Char.isWhitespace).reverse

/-- `merger.replacePlaceholderBlock`: replace everything from the first
occurrence of `openTag` to the first occurrence of `closeTag`
(inclusive) with `replacement`; unchanged when either tag is absent. -/
def replacePlaceholderBlock (content openTag closeTag replacement : GoString) : GoString :=
  match goIndex content openTag with
  | Option.none => content
  | some startIdx =>
    match goIndex content closeTag with
    | Option.none => content
    | some endIdx =>
      content.take startIdx ++ replacement ++ content.drop (endIdx + closeTag.length)

/-- `merger.containsPlaceholders`. -/
def containsPlaceholders (content : GoString) : Bool :=
  goContains content (gstr "<language-specific-") &&
    goContains content (gstr "</language-specific-")

/-- `merger.containsTestCommands`. -/
def containsTestCommands (content : GoString) : Bool :=
  goContains content (gstr "Testing commands") ||
    goContains content (gstr "### Testing commands") ||
    goContains content (gstr "test ./...")

/-- Line loop of `merger.extractTestCommands` (state: in-test-section
flag and collected lines; an early `break` returns the lines so far). -/
def etcLoop : List GoString → Bool → List GoString → List GoString
  | [], _, acc => acc
  | line :: rest, inTest, acc =>
    if goContains line (gstr "Testing commands") ||
        goContains line (gstr "### Testing commands") then
      etcLoop rest true acc
    else if inTest then
      if (gstr "#").isPrefixOf line ∧ ¬goContains line (gstr "Testing") then acc
      else if line = [] ∧ acc.length > 4 then acc
      else if line ≠ [] then etcLoop rest inTest (acc ++ [line])
      else etcLoop rest inTest acc
    else etcLoop rest inTest acc

/-- `merger.extractTestCommands`. -/
def extractTestCommands (content : GoString) : GoString :=
  joinNl (etcLoop (splitNl content) false [])

/-- `merger.containsDocumentationStandards`. -/
def containsDocumentationStandards (content : GoString) : Bool :=
  goContains content (gstr "Documentation Standards") ||
    goContains content (gstr "### Documentation Standards")

/-- Line loop of `merger.extractDocumentationStandards` (state: in-doc
flag, code-fence count, collected lines). -/
def edsLoop : List GoString → Bool → Nat → List GoString → List GoString
  | [], _, _, acc => acc
  | line :: rest, inDoc, cbc, acc =>
    if goContains line (gstr "Documentation Standards") ||
        goContains line (gstr "### Documentation Standards") then
      edsLoop rest true cbc (acc ++ [[]])  -- Add empty line before standards
    else if inDoc then
      -- Count code blocks to know when to stop
      let cbc2 := if (gstr "```").isPrefixOf line then cbc + 1 else cbc
      -- Stop after closing the godoc example code block
      if cbc2 ≥ 2 ∧ (gstr "```").isPrefixOf line then acc ++ [line]
      -- Stop at next major section
      else if (gstr "##").isPrefixOf line ∧ ¬goContains line (gstr "Documentation") then acc
      else edsLoop rest inDoc cbc2 (acc ++ [line])
    else edsLoop rest inDoc cbc acc

/-- `merger.extractDocumentationStandards`. -/
def extractDocumentationStandards (content : GoString) : GoString :=
  goTrimSpace (joinNl (edsLoop (splitNl content) false 0 []))

/-- Errors of the merge engine (`MergeAll` on an empty slice). -/
inductive MergeError where
  | emptyMergeSet
deriving DecidableEq

namespace PriorityMerger

/-- Title block of `PriorityMerger.mergeMetadata`: the only block that
also updates the priority of the accumulator. -/
def titleStep (m im : Metadata) : Metadata :=
  if (m.title = [] ∨ im.priority.TakesPrecedenceOverOrEqual m.priority = true)
      ∧ im.title ≠ [] then { m with title := im.title, priority := im.priority } else m

/-- Description block of `mergeMetadata` (only if higher priority or empty). -/
def descriptionStep (m im : Metadata) : Metadata :=
  if (m.description = [] ∨ im.priority.TakesPrecedenceOverOrEqual m.priority = true)
      ∧ im.description ≠ [] then { m with description := im.description } else m

/-- Version block of `mergeMetadata`. -/
def versionStep (m im : Metadata) : Metadata :=
  if (m.version = [] ∨ im.priority.TakesPrecedenceOverOrEqual m.priority = true)
      ∧ im.version ≠ [] then { m with version := im.version } else m

/-- Language block of `mergeMetadata`. -/
def languageStep (m im : Metadata) : Metadata :=
  if (m.language = [] ∨ im.priority.TakesPrecedenceOverOrEqual m.priority = true)
      ∧ im.language ≠ [] then { m with language := im.language } else m

/-- Extends block of `mergeMetadata`. -/
def extendsStep (m im : Metadata) : Metadata :=
  if (m.extendsRef = [] ∨ im.priority.TakesPrecedenceOverOrEqual m.priority = true)
      ∧ im.extendsRef ≠ [] then { m with extendsRef := im.extendsRef } else m

/-- `PriorityMerger.mergeMetadata`: field-by-field metadata merge in
source order (title, description, version, language, extends); the
accumulator priority is updated only in the title block, and each
the precedence test of each later block reads the possibly-updated priority. -/
def mergeMetadata (result incoming : Config) : Config :=
  { result with metadata :=
      extendsStep (languageStep (versionStep (descriptionStep
        (titleStep result.metadata incoming.metadata) incoming.metadata)
        incoming.metadata) incoming.metadata) incoming.metadata }

/-- Body of the per-key merge loop shared by sections, merge points
and merge targets: an incoming entry replaces the accumulated one when
the key is absent or the incoming priority takes precedence or equals. -/
def mergeStep {α : Type} (prio : α → Priority) (res : List (GoString × α))
    (k : GoString) (v : α) : List (GoString × α) :=
  match lookupA res k with
  | Option.none => setA res k v
  | some existing =>
    if (prio v).TakesPrecedenceOverOrEqual (prio existing) = true then setA res k v
    else res

/-- The per-key merge loop itself. -/
def mergeEntries {α : Type} (prio : α → Priority) :
    List (GoString × α) → List (GoString × α) → List (GoString × α)
  | res, [] => res
  | res, (k, v) :: rest => mergeEntries prio (mergeStep prio res k v) rest

/-- `PriorityMerger.mergeSections`. -/
def mergeSections (result incoming : Config) : Config :=
  { result with
    sections :=
      some (mergeEntries Section.priority (result.sections.getD [])
        (incoming.sections.getD [])) }

/-- `PriorityMerger.mergeMergePoints`. -/
def mergeMergePoints (result incoming : Config) : Config :=
  { result with
    mergePoints :=
      some (mergeEntries MergePoint.priority (result.mergePoints.getD [])
        (incoming.mergePoints.getD [])) }

/-- `PriorityMerger.mergeMergeTargets`. -/
def mergeMergeTargets (result incoming : Config) : Config :=
  { result with
    mergeTargets :=
      some (mergeEntries MergeTarget.priority (result.mergeTargets.getD [])
        (incoming.mergeTargets.getD [])) }

/-- The placeholder tag strings hard-coded in
`applyPlaceholderReplacements`. -/
def testOpenTag : GoString := gstr "<language-specific-test-commands-here>"

/-- Closing tag paired with `testOpenTag`. -/
def testCloseTag : GoString := gstr "</language-specific-test-commands-here>"

/-- Opening documentation-standards tag. -/
def docOpenTag : GoString := gstr "<language-specific-documentation-standards>"

/-- Closing documentation-standards tag. -/
def docCloseTag : GoString := gstr "</language-specific-documentation-standards>"

/-- Collection phase of `applyPlaceholderReplacements`: scan every
section of every config for test commands and documentation standards
(the `replacements` Go map, as an association list). -/
def collectReplacements (configs : List Config) : List (GoString × GoString) :=
  configs.foldl
    (fun repl cfg =>
      (cfg.sections.getD []).foldl
        (fun repl kv =>
          let content := kv.2.content
          let r1 := if containsTestCommands content = true then
              setA repl (gstr "test-commands") (extractTestCommands content)
            else repl
          if containsDocumentationStandards content = true then
            setA r1 (gstr "documentation-standards") (extractDocumentationStandards content)
          else r1)
        repl)
    []

/-- Application phase of `applyPlaceholderReplacements` on one
content of one section: one block replacement per placeholder name, with the
extracted text or with empty content (a missing Go map key reads ""). -/
def transformContent (repl : List (GoString × GoString)) (content : GoString) : GoString :=
  let t := (lookupA repl (gstr "test-commands")).getD []
  let c1 := if t ≠ [] then replacePlaceholderBlock content testOpenTag testCloseTag t
    else replacePlaceholderBlock content testOpenTag testCloseTag []
  let d := (lookupA repl (gstr "documentation-standards")).getD []
  if d ≠ [] then replacePlaceholderBlock c1 docOpenTag docCloseTag d
  else replacePlaceholderBlock c1 docOpenTag docCloseTag []

/-- `PriorityMerger.applyPlaceholderReplacements`. -/
def applyPlaceholderReplacements (result : Config) (configs : List Config) : Config :=
  let repl := collectReplacements configs
  { result with
    sections :=
      some ((result.sections.getD []).map (fun kv => (kv.1,
        { kv.2 with content := transformContent repl kv.2.content }))) }

/-- Does any section of this config contain placeholder markers. -/
def configHasPlaceholders (cfg : Config) : Bool :=
  (cfg.sections.getD []).any (fun kv => containsPlaceholders kv.2.content)

/-- `PriorityMerger.findBaseTemplate`, returning the first matching
config together with its index (Go identifies the base by pointer;
the index plays that role here). -/
def findBase : List Config → Nat → Option (Nat × Config)
  | [], _ => Option.none
  | cfg :: rest, i =>
    if configHasPlaceholders cfg = true then some (i, cfg) else findBase rest (i + 1)

/-- Final metadata loop of `mergeWithTemplate`: non-base configs may
override the base title only when they strictly outrank it. -/
def titleOverrideLoop (r : Config) : List Config → Nat → Nat → Config
  | [], _, _ => r
  | cfg :: rest, baseIdx, i =>
    titleOverrideLoop
      (if i ≠ baseIdx
          ∧ cfg.metadata.priority.TakesPrecedenceOverOrEqual r.metadata.priority = true
          ∧ cfg.metadata.title ≠ [] ∧ cfg.metadata.title ≠ r.metadata.title
          ∧ cfg.metadata.priority.TakesPrecedenceOver r.metadata.priority = true then
        { r with metadata := { r.metadata with title := cfg.metadata.title } }
      else r)
      rest baseIdx (i + 1)

/-- Fold of the Go loop that writes every entry of a map into the result map. -/
def setAll {α : Type} : List (GoString × α) → List (GoString × α) → List (GoString × α)
  | res, [] => res
  | res, (k, v) :: rest => setAll (setA res k v) rest

/-- `PriorityMerger.mergeWithTemplate`. -/
def mergeWithTemplate (result base : Config) (configs : List Config) (baseIdx : Nat) : Config :=
  -- Start with base config
  let r1 := { result with
    metadata := base.metadata,
    sections := some (setAll (result.sections.getD []) (base.sections.getD [])),
    mergePoints := some (setAll (result.mergePoints.getD []) (base.mergePoints.getD [])),
    mergeTargets := some (setAll (result.mergeTargets.getD []) (base.mergeTargets.getD [])) }
  -- Apply placeholder replacements
  let r2 := applyPlaceholderReplacements r1 configs
  -- Merge metadata from other configs if they have higher priority
  titleOverrideLoop r2 configs baseIdx 0

/-- The fresh accumulator `MergeAll` allocates (Go zero values, with
the three maps made non-nil). -/
def emptyResult : Config :=
  { metadata :=
      { title := [], description := [], version := [], language := [],
        extendsRef := [], priority := { type := PriorityType.none, value := 0 } },
    sections := some [], mergePoints := some [], mergeTargets := some [],
    sourceFile := [], sourceFormat := FileFormat.FormatTOML }

/-- One iteration of the standard-mode merge loop of `MergeAll`. -/
def stdMergeStep (r cfg : Config) : Config :=
  mergeMergeTargets (mergeMergePoints (mergeSections (mergeMetadata r cfg) cfg) cfg) cfg

/-- `PriorityMerger.MergeAll`. -/
def MergeAll (configs : List Config) : Except MergeError Config :=
  match configs with
  | [] => Except.error MergeError.emptyMergeSet
  | _ :: _ =>
    match findBase configs 0 with
    | some (i, base) => Except.ok (mergeWithTemplate emptyResult base configs i)
    | Option.none => Except.ok (configs.foldl stdMergeStep emptyResult)

end PriorityMerger

/-- Observation helper: the content of the merged-document section
under key `k`, when the merge succeeds and the key is present. -/
def mergedSectionContent (configs : List Config) (k : GoString) : Option GoString :=
  (PriorityMerger.MergeAll configs).toOption.bind fun r =>
    (lookupA (r.sections.getD []) k).map Section.content

/-- The map-normalization step at the end of `config.ParseConfig`
(lines initializing nil maps), applied to every successfully parsed
config whatever the surface syntax produced. -/
def initializeMaps (cfg : Config) : Config :=
  { cfg with
    sections := some (cfg.sections.getD []),
    mergePoints := some (cfg.mergePoints.getD []),
    mergeTargets := some (cfg.mergeTargets.getD []) }

theorem lookupA_mem {α : Type} {l : List (GoString × α)} {k : GoString} {v : α}
    (h : lookupA l k = some v) : (k, v) ∈ l := by
  induction l with
  | nil => simp [lookupA] at h
  | cons hd tl ih =>
    obtain ⟨k2, v2⟩ := hd
    unfold lookupA at h
    by_cases hk : k2 = k
    · rw [if_pos hk] at h
      injection h with h2
      subst hk; subst h2
      exact List.mem_cons_self _ _
    · rw [if_neg hk] at h
      exact List.mem_cons_of_mem _ (ih h)

theorem lookupA_not_mem {α : Type} {l : List (GoString × α)} {k : GoString}
    (h : k ∉ l.map Prod.fst) : lookupA l k = Option.none := by
  induction l with
  | nil => rfl
  | cons hd tl ih =>
    obtain ⟨k2, v2⟩ := hd
    simp only [List.map_cons, List.mem_cons, not_or] at h
    unfold lookupA
    rw [if_neg (fun he => h.1 he.symm)]
    exact ih h.2

theorem setA_lookup_none {α : Type} {l : List (GoString × α)} {k : GoString} (v : α)
    (h : lookupA l k = Option.none) : setA l k v = l ++ [(k, v)] := by
  induction l with
  | nil => rfl
  | cons hd tl ih =>
    obtain ⟨k2, v2⟩ := hd
    unfold lookupA at h
    unfold setA
    by_cases hk : k2 = k
    · rw [if_pos hk] at h; exact absurd h (by simp)
    · rw [if_neg hk] at h
      rw [if_neg hk, ih h]
      simp

theorem lookupA_setA_self {α : Type} (l : List (GoString × α)) (k : GoString) (v : α) :
    lookupA (setA l k v) k = some v := by
  induction l with
  | nil => simp [setA, lookupA]
  | cons hd tl ih =>
    obtain ⟨k2, v2⟩ := hd
    unfold setA
    by_cases hk : k2 = k
    · rw [if_pos hk]; simp [lookupA]
    · rw [if_neg hk]
      unfold lookupA
      rw [if_neg hk]
      exact ih

theorem lookupA_setA_ne {α : Type} (l : List (GoString × α)) {k2 k : GoString} (v : α)
    (h : k2 ≠ k) : lookupA (setA l k2 v) k = lookupA l k := by
  induction l with
  | nil => simp [setA, lookupA, h]
  | cons hd tl ih =>
    obtain ⟨ka, va⟩ := hd
    unfold setA
    by_cases hk : ka = k2
    · rw [if_pos hk]
      unfold lookupA
      rw [if_neg h, if_neg (hk ▸ h)]
    · rw [if_neg hk]
      unfold lookupA
      by_cases hak : ka = k
      · rw [if_pos hak, if_pos hak]
      · rw [if_neg hak, if_neg hak]
        exact ih

theorem lookupA_mergeStep_ne {α : Type} (p : α → Priority) (res : List (GoString × α))
    {k2 k : GoString} (v : α) (h : k2 ≠ k) :
    lookupA (PriorityMerger.mergeStep p res k2 v) k = lookupA res k := by
  unfold PriorityMerger.mergeStep
  cases lookupA res k2 with
  | none => exact lookupA_setA_ne res v h
  | some ex =>
    show lookupA (if (p v).TakesPrecedenceOverOrEqual (p ex) = true
      then setA res k2 v else res) k = _
    split
    · exact lookupA_setA_ne res v h
    · rfl

theorem mergeStep_of_none {α : Type} (p : α → Priority) {res : List (GoString × α)}
    {k : GoString} (v : α) (h : lookupA res k = Option.none) :
    PriorityMerger.mergeStep p res k v = setA res k v := by
  unfold PriorityMerger.mergeStep
  rw [h]

theorem lookupA_mergeStep_some {α : Type} (p : α → Priority) {res : List (GoString × α)}
    {k : GoString} {old : α} (v : α) (h : lookupA res k = some old) :
    lookupA (PriorityMerger.mergeStep p res k v) k =
      (if (p v).TakesPrecedenceOverOrEqual (p old) = true then some v else some old) := by
  unfold PriorityMerger.mergeStep
  rw [h]
  show lookupA (if (p v).TakesPrecedenceOverOrEqual (p old) = true
    then setA res k v else res) k = _
  split
  · exact lookupA_setA_self res k v
  · exact h

theorem mergeEntries_cons {α : Type} (p : α → Priority) (res : List (GoString × α))
    (k : GoString) (v : α) (tl : List (GoString × α)) :
    PriorityMerger.mergeEntries p res ((k, v) :: tl) =
      PriorityMerger.mergeEntries p (PriorityMerger.mergeStep p res k v) tl := rfl

theorem mergeEntries_lookup_not_mem {α : Type} (p : α → Priority)
    {inc : List (GoString × α)} {k : GoString}
    (h : k ∉ inc.map Prod.fst) (res : List (GoString × α)) :
    lookupA (PriorityMerger.mergeEntries p res inc) k = lookupA res k := by
  induction inc generalizing res with
  | nil => rfl
  | cons hd tl ih =>
    obtain ⟨k2, v2⟩ := hd
    simp only [List.map_cons, List.mem_cons, not_or] at h
    have hne : k2 ≠ k := fun he => h.1 he.symm
    rw [mergeEntries_cons, ih h.2, lookupA_mergeStep_ne p res v2 hne]

theorem mergeEntries_fresh {α : Type} (p : α → Priority)
    {inc : List (GoString × α)} (hnd : (inc.map Prod.fst).Nodup)
    (res : List (GoString × α))
    (hdisj : ∀ k ∈ inc.map Prod.fst, lookupA res k = Option.none) :
    PriorityMerger.mergeEntries p res inc = res ++ inc := by
  induction inc generalizing res with
  | nil => simp [PriorityMerger.mergeEntries]
  | cons hd tl ih =>
    obtain ⟨k2, v2⟩ := hd
    simp only [List.map_cons, List.nodup_cons] at hnd
    have hres : lookupA res k2 = Option.none := hdisj k2 (List.mem_cons_self _ _)
    rw [mergeEntries_cons, mergeStep_of_none p v2 hres, setA_lookup_none v2 hres]
    rw [ih hnd.2 _ ?_]
    · simp
    · intro k hk
      have hk2 : k2 ≠ k := fun he => hnd.1 (he ▸ hk)
      rw [← setA_lookup_none v2 hres, lookupA_setA_ne res v2 hk2]
      exact hdisj k (List.mem_cons_of_mem _ hk)

theorem mergeEntries_lookup_fresh {α : Type} (p : α → Priority)
    {inc : List (GoString × α)} {k : GoString} {v : α}
    (hnd : (inc.map Prod.fst).Nodup) (hmem : (k, v) ∈ inc)
    (res : List (GoString × α)) (hres : lookupA res k = Option.none) :
    lookupA (PriorityMerger.mergeEntries p res inc) k = some v := by
  induction inc generalizing res with
  | nil => cases hmem
  | cons hd tl ih =>
    obtain ⟨k2, v2⟩ := hd
    simp only [List.map_cons, List.nodup_cons] at hnd
    rcases List.mem_cons.mp hmem with heq | hmem2
    · injection heq with h1 h2
      subst h1; subst h2
      rw [mergeEntries_cons, mergeEntries_lookup_not_mem p hnd.1 _,
        mergeStep_of_none p v hres]
      exact lookupA_setA_self res k v
    · have hk2 : k2 ≠ k := by
        intro he
        exact hnd.1 (he ▸ (List.mem_map.mpr ⟨(k, v), hmem2, rfl⟩))
      rw [mergeEntries_cons]
      exact ih hnd.2 hmem2 _ (by rw [lookupA_mergeStep_ne p res v2 hk2]; exact hres)

theorem mergeEntries_lookup_decided {α : Type} (p : α → Priority)
    {inc : List (GoString × α)} {k : GoString} {v old : α}
    (hnd : (inc.map Prod.fst).Nodup) (hmem : (k, v) ∈ inc)
    (res : List (GoString × α)) (hres : lookupA res k = some old) :
    lookupA (PriorityMerger.mergeEntries p res inc) k =
      (if (p v).TakesPrecedenceOverOrEqual (p old) = true then some v else some old) := by
  induction inc generalizing res with
  | nil => cases hmem
  | cons hd tl ih =>
    obtain ⟨k2, v2⟩ := hd
    simp only [List.map_cons, List.nodup_cons] at hnd
    rcases List.mem_cons.mp hmem with heq | hmem2
    · injection heq with h1 h2
      subst h1; subst h2
      rw [mergeEntries_cons, mergeEntries_lookup_not_mem p hnd.1 _]
      exact lookupA_mergeStep_some p v hres
    · have hk2 : k2 ≠ k := by
        intro he
        exact hnd.1 (he ▸ (List.mem_map.mpr ⟨(k, v), hmem2, rfl⟩))
      rw [mergeEntries_cons]
      exact ih hnd.2 hmem2 _ (by rw [lookupA_mergeStep_ne p res v2 hk2]; exact hres)

theorem stdMergeStep_metadata (r cfg : Config) :
    (PriorityMerger.stdMergeStep r cfg).metadata =
      (PriorityMerger.mergeMetadata r cfg).metadata := rfl

theorem stdMergeStep_sections (r cfg : Config) :
    (PriorityMerger.stdMergeStep r cfg).sections =
      some (PriorityMerger.mergeEntries Section.priority (r.sections.getD [])
        (cfg.sections.getD [])) := rfl

theorem stdMergeStep_mergePoints (r cfg : Config) :
    (PriorityMerger.stdMergeStep r cfg).mergePoints =
      some (PriorityMerger.mergeEntries MergePoint.priority (r.mergePoints.getD [])
        (cfg.mergePoints.getD [])) := rfl

theorem stdMergeStep_mergeTargets (r cfg : Config) :
    (PriorityMerger.stdMergeStep r cfg).mergeTargets =
      some (PriorityMerger.mergeEntries MergeTarget.priority (r.mergeTargets.getD [])
        (cfg.mergeTargets.getD [])) := rfl

theorem findBase_none {cfgs : List Config}
    (h : ∀ cfg ∈ cfgs, PriorityMerger.configHasPlaceholders cfg = false) :
    ∀ n, PriorityMerger.findBase cfgs n = Option.none := by
  induction cfgs with
  | nil => intro n; rfl
  | cons c rest ih =>
    intro n
    unfold PriorityMerger.findBase
    rw [if_neg]
    · exact ih (fun cfg hm => h cfg (List.mem_cons_of_mem _ hm)) (n + 1)
    · rw [h c (List.mem_cons_self _ _)]
      simp

theorem titleOverrideLoop_maps (cfgs : List Config) :
    ∀ (r : Config) (b i : Nat),
      ((PriorityMerger.titleOverrideLoop r cfgs b i).sections = r.sections ∧
       (PriorityMerger.titleOverrideLoop r cfgs b i).mergePoints = r.mergePoints ∧
       (PriorityMerger.titleOverrideLoop r cfgs b i).mergeTargets = r.mergeTargets) := by
  induction cfgs with
  | nil => intro r b i; exact ⟨rfl, rfl, rfl⟩
  | cons c rest ih =>
    intro r b i
    unfold PriorityMerger.titleOverrideLoop
    refine ⟨?_, ?_, ?_⟩
    · rw [(ih _ b (i + 1)).1]
      split <;> rfl
    · rw [(ih _ b (i + 1)).2.1]
      split <;> rfl
    · rw [(ih _ b (i + 1)).2.2]
      split <;> rfl

theorem foldl_stdMergeStep_maps (l : List Config) :
    ∀ r : Config, r.sections.isSome = true → r.mergePoints.isSome = true →
      r.mergeTargets.isSome = true →
      ((l.foldl PriorityMerger.stdMergeStep r).sections.isSome = true ∧
       (l.foldl PriorityMerger.stdMergeStep r).mergePoints.isSome = true ∧
       (l.foldl PriorityMerger.stdMergeStep r).mergeTargets.isSome = true) := by
  induction l with
  | nil => intro r h1 h2 h3; exact ⟨h1, h2, h3⟩
  | cons c rest ih =>
    intro r h1 h2 h3
    rw [List.foldl_cons]
    exact ih _ (by rw [stdMergeStep_sections]; rfl)
      (by rw [stdMergeStep_mergePoints]; rfl)
      (by rw [stdMergeStep_mergeTargets]; rfl)

/-- C6: merging an empty sequence of documents fails with the
empty-merge-set error; merging any non-empty sequence succeeds and
produces a document. -/
theorem mergeAll_empty_fails_nonempty_succeeds :
    PriorityMerger.MergeAll [] = Except.error MergeError.emptyMergeSet ∧
    (∀ configs : List Config, configs ≠ [] →
      (PriorityMerger.MergeAll configs).toOption.isSome = true) := by
  constructor
  · rfl
  · intro configs h
    match configs with
    | [] => exact absurd rfl h
    | c :: rest =>
      cases h2 : PriorityMerger.findBase (c :: rest) 0 with
      | none => simp [PriorityMerger.MergeAll, h2, Except.toOption]
      | some ib =>
        obtain ⟨i, base⟩ := ib
        simp [PriorityMerger.MergeAll, h2, Except.toOption]

/-- C6 witness: a concrete one-element merge succeeds. -/
theorem mergeAll_empty_fails_nonempty_succeeds_witness :
    (PriorityMerger.MergeAll [PriorityMerger.emptyResult]).toOption.isSome = true :=
  mergeAll_empty_fails_nonempty_succeeds.2 [PriorityMerger.emptyResult] (by simp)

/-- C9: every document leaving the map-initialization step of the normalizer
has its three maps present (an empty mapping rather than an absent
one), and so does every document the merge engine returns. -/
theorem maps_always_present :
    (∀ cfg : Config,
      (initializeMaps cfg).sections.isSome = true ∧
      (initializeMaps cfg).mergePoints.isSome = true ∧
      (initializeMaps cfg).mergeTargets.isSome = true) ∧
    (∀ (configs : List Config) (r : Config),
      PriorityMerger.MergeAll configs = Except.ok r →
      r.sections.isSome = true ∧ r.mergePoints.isSome = true ∧
        r.mergeTargets.isSome = true) := by
  constructor
  · intro cfg
    exact ⟨rfl, rfl, rfl⟩
  · intro configs r h
    match configs with
    | [] => cases h
    | c :: rest =>
      rw [PriorityMerger.MergeAll] at h
      cases h2 : PriorityMerger.findBase (c :: rest) 0 with
      | some ib =>
        obtain ⟨i, base⟩ := ib
        rw [h2] at h
        injection h with h3
        subst h3
        unfold PriorityMerger.mergeWithTemplate
        refine ⟨?_, ?_, ?_⟩
        · rw [(titleOverrideLoop_maps _ _ _ _).1]
          rfl
        · rw [(titleOverrideLoop_maps _ _ _ _).2.1]
          rfl
        · rw [(titleOverrideLoop_maps _ _ _ _).2.2]
          rfl
      | none =>
        rw [h2] at h
        injection h with h3
        subst h3
        exact foldl_stdMergeStep_maps _ _ rfl rfl rfl

/-- C9 witness: the maps of a concrete normalized document and of a
concrete merged document are all present. -/
theorem maps_always_present_witness :
    PriorityMerger.emptyResult.sections.isSome = true ∧
      PriorityMerger.emptyResult.mergePoints.isSome = true ∧
      PriorityMerger.emptyResult.mergeTargets.isSome = true :=
  maps_always_present.2 [PriorityMerger.emptyResult] PriorityMerger.emptyResult rfl

theorem configHasPlaceholders_eq_false {cfg : Config}
    (h : ∀ kv ∈ cfg.sections.getD [], containsPlaceholders kv.2.content = false) :
    PriorityMerger.configHasPlaceholders cfg = false := by
  unfold PriorityMerger.configHasPlaceholders
  rw [List.any_eq_false]
  intro kv hkv
  simp [h kv hkv]

theorem mergeMetadata_from_empty (d : Config) (ht : d.metadata.title ≠ []) :
    (PriorityMerger.mergeMetadata PriorityMerger.emptyResult d).metadata = d.metadata := by
  obtain ⟨⟨t, de, v, l, e, p⟩, s, mp, mt, sf, sfo⟩ := d
  simp only [Metadata.title] at ht
  show PriorityMerger.extendsStep (PriorityMerger.languageStep (PriorityMerger.versionStep
    (PriorityMerger.descriptionStep (PriorityMerger.titleStep
      PriorityMerger.emptyResult.metadata _) _) _) _) _ = _
  unfold PriorityMerger.titleStep
  rw [if_pos ⟨Or.inl rfl, ht⟩]
  unfold PriorityMerger.descriptionStep PriorityMerger.versionStep
    PriorityMerger.languageStep PriorityMerger.extendsStep
  by_cases hde : de = [] <;> by_cases hv : v = [] <;>
    by_cases hl2 : l = [] <;> by_cases he2 : e = [] <;>
    simp [PriorityMerger.emptyResult, hde, hv, hl2, he2]

/-- C5 (amended): merging the one-element sequence of a document with
distinct section, merge-point and merge-target keys, a non-empty
metadata title, and no placeholder markers in any section returns a
document whose metadata, sections, merge points and merge targets are
identical to those of the input, with the three maps present-but-empty rather
than absent. -/
theorem mergeAll_single_document (d : Config)
    (ht : d.metadata.title ≠ [])
    (hs : ((d.sections.getD []).map Prod.fst).Nodup)
    (hmp : ((d.mergePoints.getD []).map Prod.fst).Nodup)
    (hmt : ((d.mergeTargets.getD []).map Prod.fst).Nodup)
    (hph : ∀ kv ∈ d.sections.getD [], containsPlaceholders kv.2.content = false) :
    (PriorityMerger.MergeAll [d]).toOption.map Config.metadata = some d.metadata ∧
    (PriorityMerger.MergeAll [d]).toOption.map Config.sections =
      some (some (d.sections.getD [])) ∧
    (PriorityMerger.MergeAll [d]).toOption.map Config.mergePoints =
      some (some (d.mergePoints.getD [])) ∧
    (PriorityMerger.MergeAll [d]).toOption.map Config.mergeTargets =
      some (some (d.mergeTargets.getD [])) := by
  have hfb : PriorityMerger.findBase [d] 0 = Option.none := by
    refine findBase_none ?_ 0
    intro cfg hm
    rcases List.mem_cons.mp hm with heq | hnil
    · subst heq; exact configHasPlaceholders_eq_false hph
    · cases hnil
  have hM : PriorityMerger.MergeAll [d] =
      Except.ok (PriorityMerger.stdMergeStep PriorityMerger.emptyResult d) := by
    unfold PriorityMerger.MergeAll
    rw [hfb]
    rfl
  rw [hM]
  have hget : ∀ {α : Type} (l : List (GoString × α)),
      (∀ k ∈ l.map Prod.fst, lookupA ([] : List (GoString × α)) k = Option.none) :=
    fun l k _ => rfl
  refine ⟨?_, ?_, ?_, ?_⟩
  · show some (PriorityMerger.stdMergeStep PriorityMerger.emptyResult d).metadata = _
    rw [stdMergeStep_metadata, mergeMetadata_from_empty d ht]
  · show some (PriorityMerger.stdMergeStep PriorityMerger.emptyResult d).sections = _
    rw [stdMergeStep_sections]
    show some (some (PriorityMerger.mergeEntries Section.priority []
      (d.sections.getD []))) = _
    rw [mergeEntries_fresh Section.priority hs [] (hget _)]
    rw [List.nil_append]
  · show some (PriorityMerger.stdMergeStep PriorityMerger.emptyResult d).mergePoints = _
    rw [stdMergeStep_mergePoints]
    show some (some (PriorityMerger.mergeEntries MergePoint.priority []
      (d.mergePoints.getD []))) = _
    rw [mergeEntries_fresh MergePoint.priority hmp [] (hget _)]
    rw [List.nil_append]
  · show some (PriorityMerger.stdMergeStep PriorityMerger.emptyResult d).mergeTargets = _
    rw [stdMergeStep_mergeTargets]
    show some (some (PriorityMerger.mergeEntries MergeTarget.priority []
      (d.mergeTargets.getD []))) = _
    rw [mergeEntries_fresh MergeTarget.priority hmt [] (hget _)]
    rw [List.nil_append]

/-- A document whose single section wraps content in the test-commands
placeholder pair: input for the C5 counterexample. -/
def placeholderDoc : Config :=
  { PriorityMerger.emptyResult with
    metadata := { PriorityMerger.emptyResult.metadata with title := gstr "T" },
    sections := some [(gstr "s",
      { order := 1, parent := [], mergeID := [],
        content := PriorityMerger.testOpenTag ++ gstr "x" ++ PriorityMerger.testCloseTag,
        mergePoints := [],
        priority := { type := PriorityType.none, value := 0 } })] }

/-- C5 counterexample: a document containing a placeholder marker pair
triggers template mode, which strips the placeholder block, so merging
the one-element sequence does not return the section content
unchanged. -/
theorem mergeAll_single_document_counterexample :
    mergedSectionContent [placeholderDoc] (gstr "s") = some [] ∧
    (lookupA (placeholderDoc.sections.getD []) (gstr "s")).map Section.content =
      some (PriorityMerger.testOpenTag ++ gstr "x" ++ PriorityMerger.testCloseTag) ∧
    (PriorityMerger.testOpenTag ++ gstr "x" ++ PriorityMerger.testCloseTag : GoString) ≠
      [] := by
  refine ⟨by decide, by decide, by decide⟩

/-- A minimal placeholder-free document with a title, input for the C5
witness. -/
def titledDoc : Config :=
  { PriorityMerger.emptyResult with
    metadata := { PriorityMerger.emptyResult.metadata with title := gstr "T" } }

/-- C5 witness: a concrete placeholder-free document round-trips
through the one-element merge. -/
theorem mergeAll_single_document_witness :
    (PriorityMerger.MergeAll [titledDoc]).toOption.map Config.sections =
      some (some (titledDoc.sections.getD [])) :=
  (mergeAll_single_document titledDoc
    (by decide) (by decide) (by decide) (by decide) (by decide)).2.1

/-- C2 (amended): if document X holds section `k` at explicit(5) and
document Y holds the same key at relative(1000), the keys inside each
document are distinct, and no section of either document carries
placeholder markers (so standard merging applies rather than template
substitution), then merging [X, Y] and merging [Y, X] both yield the X
content for `k`: the explicit priority wins regardless of order and of
the larger relative magnitude. -/
theorem explicit_beats_relative_both_orders (X Y : Config) (k : GoString)
    (sx sy : Section)
    (hx : lookupA (X.sections.getD []) k = some sx)
    (hy : lookupA (Y.sections.getD []) k = some sy)
    (hxp : sx.priority = { type := PriorityType.explicit, value := 5 })
    (hyq : sy.priority = { type := PriorityType.relative, value := 1000 })
    (hnx : ((X.sections.getD []).map Prod.fst).Nodup)
    (hny : ((Y.sections.getD []).map Prod.fst).Nodup)
    (hpx : ∀ kv ∈ X.sections.getD [], containsPlaceholders kv.2.content = false)
    (hpy : ∀ kv ∈ Y.sections.getD [], containsPlaceholders kv.2.content = false) :
    mergedSectionContent [X, Y] k = some sx.content ∧
    mergedSectionContent [Y, X] k = some sx.content := by
  have hrel2exp : Priority.TakesPrecedenceOverOrEqual
      { type := PriorityType.relative, value := 1000 }
      { type := PriorityType.explicit, value := 5 } = false := by decide
  have hexp2rel : Priority.TakesPrecedenceOverOrEqual
      { type := PriorityType.explicit, value := 5 }
      { type := PriorityType.relative, value := 1000 } = true := by decide
  constructor
  · have hfb : PriorityMerger.findBase [X, Y] 0 = Option.none := by
      refine findBase_none ?_ 0
      intro cfg hm
      rcases List.mem_cons.mp hm with heq | hm2
      · subst heq; exact configHasPlaceholders_eq_false hpx
      · rcases List.mem_cons.mp hm2 with heq | hm3
        · subst heq; exact configHasPlaceholders_eq_false hpy
        · cases hm3
    have hM : PriorityMerger.MergeAll [X, Y] = Except.ok
        (PriorityMerger.stdMergeStep
          (PriorityMerger.stdMergeStep PriorityMerger.emptyResult X) Y) := by
      unfold PriorityMerger.MergeAll
      rw [hfb]
      rfl
    unfold mergedSectionContent
    rw [hM]
    show (lookupA ((PriorityMerger.stdMergeStep
      (PriorityMerger.stdMergeStep PriorityMerger.emptyResult X) Y).sections.getD [])
        k).map Section.content = _
    have h1 : lookupA ((PriorityMerger.stdMergeStep
        PriorityMerger.emptyResult X).sections.getD []) k = some sx := by
      rw [stdMergeStep_sections]
      exact mergeEntries_lookup_fresh Section.priority hnx (lookupA_mem hx) _ rfl
    rw [stdMergeStep_sections]
    show (lookupA (PriorityMerger.mergeEntries Section.priority _
      (Y.sections.getD [])) k).map Section.content = _
    rw [mergeEntries_lookup_decided Section.priority hny (lookupA_mem hy) _ h1]
    rw [hxp, hyq, hrel2exp]
    rfl
  · have hfb : PriorityMerger.findBase [Y, X] 0 = Option.none := by
      refine findBase_none ?_ 0
      intro cfg hm
      rcases List.mem_cons.mp hm with heq | hm2
      · subst heq; exact configHasPlaceholders_eq_false hpy
      · rcases List.mem_cons.mp hm2 with heq | hm3
        · subst heq; exact configHasPlaceholders_eq_false hpx
        · cases hm3
    have hM : PriorityMerger.MergeAll [Y, X] = Except.ok
        (PriorityMerger.stdMergeStep
          (PriorityMerger.stdMergeStep PriorityMerger.emptyResult Y) X) := by
      unfold PriorityMerger.MergeAll
      rw [hfb]
      rfl
    unfold mergedSectionContent
    rw [hM]
    show (lookupA ((PriorityMerger.stdMergeStep
      (PriorityMerger.stdMergeStep PriorityMerger.emptyResult Y) X).sections.getD [])
        k).map Section.content = _
    have h1 : lookupA ((PriorityMerger.stdMergeStep
        PriorityMerger.emptyResult Y).sections.getD []) k = some sy := by
      rw [stdMergeStep_sections]
      exact mergeEntries_lookup_fresh Section.priority hny (lookupA_mem hy) _ rfl
    rw [stdMergeStep_sections]
    show (lookupA (PriorityMerger.mergeEntries Section.priority _
      (X.sections.getD [])) k).map Section.content = _
    rw [mergeEntries_lookup_decided Section.priority hnx (lookupA_mem hx) _ h1]
    rw [hxp, hyq, hexp2rel]
    rfl

/-- Concrete document with section `s` containing `xc` at explicit(5). -/
def explicitDoc : Config :=
  { PriorityMerger.emptyResult with
    sections := some [(gstr "s",
      { order := 1, parent := [], mergeID := [], content := gstr "xc",
        mergePoints := [],
        priority := { type := PriorityType.explicit, value := 5 } })] }

/-- Concrete document with section `s` containing `yc` at relative(1000). -/
def relativeDoc : Config :=
  { PriorityMerger.emptyResult with
    sections := some [(gstr "s",
      { order := 1, parent := [], mergeID := [], content := gstr "yc",
        mergePoints := [],
        priority := { type := PriorityType.relative, value := 1000 } })] }

/-- Concrete document with section `s` at relative(1000) whose content
is a placeholder marker pair. -/
def relativePlaceholderDoc : Config :=
  { PriorityMerger.emptyResult with
    sections := some [(gstr "s",
      { order := 1, parent := [], mergeID := [],
        content := PriorityMerger.testOpenTag ++ PriorityMerger.testCloseTag,
        mergePoints := [],
        priority := { type := PriorityType.relative, value := 1000 } })] }

/-- C2 counterexample: with a document pair satisfying exactly the
premises of the claim — X holds `s` with content `xc` at explicit(5), Y
holds `s` at relative(1000) — but the Y content holding a placeholder
marker pair, merging [X, Y] diverts into template mode with Y as base
and yields empty content for `s` instead of the X content. -/
theorem explicit_beats_relative_counterexample :
    (lookupA (explicitDoc.sections.getD []) (gstr "s")).map Section.content =
      some (gstr "xc") ∧
    (lookupA (explicitDoc.sections.getD []) (gstr "s")).map Section.priority =
      some { type := PriorityType.explicit, value := 5 } ∧
    (lookupA (relativePlaceholderDoc.sections.getD []) (gstr "s")).map Section.priority =
      some { type := PriorityType.relative, value := 1000 } ∧
    mergedSectionContent [explicitDoc, relativePlaceholderDoc] (gstr "s") = some [] ∧
    some ([] : GoString) ≠ some (gstr "xc") := by
  refine ⟨by decide, by decide, by decide, by decide, by decide⟩

/-- C2 witness: the amended theorem applied to the concrete
placeholder-free pair. -/
theorem explicit_beats_relative_both_orders_witness :
    mergedSectionContent [explicitDoc, relativeDoc] (gstr "s") =
      some ((⟨1, [], [], gstr "xc", [],
        { type := PriorityType.explicit, value := 5 }⟩ : Section).content) ∧
    mergedSectionContent [relativeDoc, explicitDoc] (gstr "s") =
      some ((⟨1, [], [], gstr "xc", [],
        { type := PriorityType.explicit, value := 5 }⟩ : Section).content) :=
  explicit_beats_relative_both_orders explicitDoc relativeDoc (gstr "s")
    ⟨1, [], [], gstr "xc", [], { type := PriorityType.explicit, value := 5 }⟩
    ⟨1, [], [], gstr "yc", [], { type := PriorityType.relative, value := 1000 }⟩
    (by decide) (by decide) (by decide) (by decide) (by decide) (by decide)
    (by decide) (by decide)

theorem goIndex_eq_some_iff (pat : GoString) : ∀ (s : GoString) (i : Nat),
    goIndex s pat = some i ↔
      (pat.isPrefixOf (s.drop i) = true ∧
        ∀ j, j < i → pat.isPrefixOf (s.drop j) = false) := by
  intro s
  induction s with
  | nil =>
    intro i
    unfold goIndex
    by_cases h : pat.isPrefixOf ([] : GoString) = true
    · rw [if_pos h]
      constructor
      · intro he
        injection he with he2
        subst he2
        exact ⟨h, fun j hj => absurd hj (Nat.not_lt_zero j)⟩
      · rintro ⟨h1, h2⟩
        cases i with
        | zero => rfl
        | succ n =>
          have hf := h2 0 (Nat.succ_pos n)
          rw [List.drop_zero] at hf
          rw [hf] at h
          cases h
    · rw [if_neg h]
      constructor
      · intro he; cases he
      · rintro ⟨h1, h2⟩
        rw [List.drop_nil] at h1
        exact absurd h1 h
  | cons c rest ih =>
    intro i
    unfold goIndex
    by_cases h : pat.isPrefixOf (c :: rest) = true
    · rw [if_pos h]
      constructor
      · intro he
        injection he with he2
        subst he2
        exact ⟨h, fun j hj => absurd hj (Nat.not_lt_zero j)⟩
      · rintro ⟨h1, h2⟩
        cases i with
        | zero => rfl
        | succ n =>
          have hf := h2 0 (Nat.succ_pos n)
          rw [List.drop_zero] at hf
          rw [hf] at h
          cases h
    · rw [if_neg h]
      change ((goIndex rest pat).map (· + 1) = some i) ↔ _
      cases i with
      | zero =>
        constructor
        · intro he
          cases hg : goIndex rest pat with
          | none => rw [hg] at he; cases he
          | some n => rw [hg] at he; simp at he
        · rintro ⟨h1, h2⟩
          rw [List.drop_zero] at h1
          exact absurd h1 h
      | succ n =>
        have hmap : ((goIndex rest pat).map (· + 1) = some (n + 1)) ↔
            goIndex rest pat = some n := by
          cases hg : goIndex rest pat <;> simp
        rw [hmap, ih n]
        constructor
        · rintro ⟨h1, h2⟩
          refine ⟨by rw [List.drop_succ_cons]; exact h1, ?_⟩
          intro j hj
          cases j with
          | zero =>
            rw [List.drop_zero]
            exact Bool.not_eq_true _ ▸ h
          | succ m =>
            rw [List.drop_succ_cons]
            exact h2 m (Nat.lt_of_succ_lt_succ hj)
        · rintro ⟨h1, h2⟩
          refine ⟨by rw [List.drop_succ_cons] at h1; exact h1, ?_⟩
          intro j hj
          have hs := h2 (j + 1) (Nat.succ_lt_succ hj)
          rw [List.drop_succ_cons] at hs
          exact hs

theorem lookupA_map_content {α : Type} (f : α → α) (k : GoString) :
    ∀ l : List (GoString × α),
      lookupA (l.map (fun kv => (kv.1, f kv.2))) k = (lookupA l k).map f := by
  intro l
  induction l with
  | nil => rfl
  | cons hd tl ih =>
    obtain ⟨k2, v2⟩ := hd
    show lookupA ((k2, f v2) :: tl.map _) k = _
    unfold lookupA
    by_cases hk : k2 = k
    · rw [if_pos hk, if_pos hk]
      rfl
    · rw [if_neg hk, if_neg hk]
      exact ih

/-- C4 (amended): placeholder substitution transforms each result
content of each result section by exactly one block replacement per placeholder
name — the extracted text (or empty content when none was extracted)
substituted for the region from the first occurrence of the open
marker through the first occurrence of the close marker, both markers
included; occurrences of a marker pair after the first are left in
place, so marker tags can survive in the output. -/
theorem applyPlaceholderReplacements_single_block :
    (∀ (result : Config) (configs : List Config) (k : GoString),
      lookupA ((PriorityMerger.applyPlaceholderReplacements result configs).sections.getD [])
          k =
        (lookupA (result.sections.getD []) k).map (fun s =>
          { s with content := (PriorityMerger.transformContent
              (PriorityMerger.collectReplacements configs) s.content) })) ∧
    (∀ pre oTag mid cTag post repl : GoString,
      (∀ j, j < pre.length →
        oTag.isPrefixOf ((pre ++ oTag ++ mid ++ cTag ++ post).drop j) = false) →
      (∀ j, j < pre.length + oTag.length + mid.length →
        cTag.isPrefixOf ((pre ++ oTag ++ mid ++ cTag ++ post).drop j) = false) →
      replacePlaceholderBlock (pre ++ oTag ++ mid ++ cTag ++ post) oTag cTag repl =
        pre ++ repl ++ post) := by
  constructor
  · intro result configs k
    unfold PriorityMerger.applyPlaceholderReplacements
    exact lookupA_map_content
      (fun s => { s with content := (PriorityMerger.transformContent
        (PriorityMerger.collectReplacements configs) s.content) })
      k (result.sections.getD [])
  · intro pre oTag mid cTag post repl ho hc
    have hassoc : pre ++ oTag ++ mid ++ cTag ++ post =
        pre ++ (oTag ++ (mid ++ (cTag ++ post))) := by
      simp [List.append_assoc]
    have hassoc2 : pre ++ oTag ++ mid ++ cTag ++ post =
        ((pre ++ oTag ++ mid) ++ cTag) ++ post := by
      simp [List.append_assoc]
    have hgo : goIndex (pre ++ oTag ++ mid ++ cTag ++ post) oTag = some pre.length := by
      rw [goIndex_eq_some_iff]
      refine ⟨?_, ho⟩
      rw [hassoc, List.drop_left]
      exact List.isPrefixOf_iff_prefix.mpr (List.prefix_append _ _)
    have hgc : goIndex (pre ++ oTag ++ mid ++ cTag ++ post) cTag =
        some (pre.length + oTag.length + mid.length) := by
      rw [goIndex_eq_some_iff]
      refine ⟨?_, hc⟩
      have hlen : pre.length + oTag.length + mid.length = (pre ++ oTag ++ mid).length := by
        simp [List.length_append]
        omega
      rw [hlen, hassoc2, List.append_assoc (pre ++ oTag ++ mid) cTag post,
        List.drop_left]
      exact List.isPrefixOf_iff_prefix.mpr (List.prefix_append _ _)
    unfold replacePlaceholderBlock
    rw [hgo, hgc]
    show (pre ++ oTag ++ mid ++ cTag ++ post).take pre.length ++ repl ++
      (pre ++ oTag ++ mid ++ cTag ++ post).drop
        (pre.length + oTag.length + mid.length + cTag.length) = _
    have htake : (pre ++ oTag ++ mid ++ cTag ++ post).take pre.length = pre := by
      rw [hassoc]
      exact List.take_left _ _
    have hdrop : (pre ++ oTag ++ mid ++ cTag ++ post).drop
        (pre.length + oTag.length + mid.length + cTag.length) = post := by
      have hlen : pre.length + oTag.length + mid.length + cTag.length =
          ((pre ++ oTag ++ mid) ++ cTag).length := by
        simp [List.length_append]
        omega
      rw [hlen, hassoc2]
      exact List.drop_left _ _
    rw [htake, hdrop]

/-- A config whose single section contains two copies of the
test-commands marker pair: input for the C4 counterexample. -/
def doublePairDoc : Config :=
  { PriorityMerger.emptyResult with
    sections := some [(gstr "s",
      { order := 1, parent := [], mergeID := [],
        content := PriorityMerger.testOpenTag ++ gstr "a" ++ PriorityMerger.testCloseTag ++
          PriorityMerger.testOpenTag ++ gstr "b" ++ PriorityMerger.testCloseTag,
        mergePoints := [],
        priority := { type := PriorityType.none, value := 0 } })] }

/-- C4 counterexample: with two marker pairs in one section, only the
first is replaced, and the merged output still contains marker tags,
against the claim that no marker tag remains. -/
theorem applyPlaceholderReplacements_counterexample :
    mergedSectionContent [doublePairDoc] (gstr "s") =
      some (PriorityMerger.testOpenTag ++ gstr "b" ++ PriorityMerger.testCloseTag) ∧
    (mergedSectionContent [doublePairDoc] (gstr "s")).map
      (fun c => goContains c PriorityMerger.testCloseTag) = some true := by
  refine ⟨by decide, by decide⟩

/-- C4 witness: the single-block replacement on a concrete string with
one marker pair removes exactly that block. -/
theorem applyPlaceholderReplacements_single_block_witness :
    replacePlaceholderBlock
      (gstr "A" ++ gstr "<t>" ++ gstr "m" ++ gstr "</t>" ++ gstr "B")
      (gstr "<t>") (gstr "</t>") (gstr "R") =
      gstr "A" ++ gstr "R" ++ gstr "B" :=
  applyPlaceholderReplacements_single_block.2 (gstr "A") (gstr "<t>") (gstr "m")
    (gstr "</t>") (gstr "B") (gstr "R") (by decide) (by decide)

/-- C1: `Priority.TakesPrecedenceOver` returns true iff the kind of A is
explicit and that of B is not, or the kinds agree and the magnitude of A is
strictly greater, or A is relative and B is none; all other
combinations, A equal to B included, give false. -/
theorem takesPrecedenceOver_spec (A B : Priority) :
    A.TakesPrecedenceOver B = true ↔
      ((A.type = PriorityType.explicit ∧ B.type ≠ PriorityType.explicit) ∨
       (A.type = B.type ∧ A.value > B.value) ∨
       (A.type = PriorityType.relative ∧ B.type = PriorityType.none)) := by
  obtain ⟨ta, va⟩ := A
  obtain ⟨tb, vb⟩ := B
  cases ta <;> cases tb <;>
    simp [Priority.TakesPrecedenceOver]

/-- C3: evaluation of `Priority.TakesPrecedenceOverOrEqual` at two
priorities of kind none with different magnitudes: the same-kind branch
compares the (supposedly meaningless) magnitudes first, so the result
is false, while the spec and the unreachable in-code
none-versus-none branch say true. -/
theorem takesPrecedenceOverOrEqual_none_none_eval :
    Priority.TakesPrecedenceOverOrEqual
      { type := PriorityType.none, value := 0 }
      { type := PriorityType.none, value := 1 } = false := by decide

/-- C8: `ApplyStrategy` with tag replace returns the new content; with
append it returns the new content when the old is empty and otherwise
old, newline, new; with prepend symmetrically; and with any
unrecognized tag it behaves exactly as replace. -/
theorem applyStrategy_spec (old new : GoString) :
    ApplyStrategy (gstr "replace") old new = new ∧
    ApplyStrategy (gstr "append") old new =
      (if old = [] then new else old ++ gstr "\n" ++ new) ∧
    ApplyStrategy (gstr "prepend") old new =
      (if old = [] then new else new ++ gstr "\n" ++ old) ∧
    (∀ s : MergeStrategy, s ≠ gstr "replace" → s ≠ gstr "append" → s ≠ gstr "prepend" →
      ApplyStrategy s old new = ApplyStrategy (gstr "replace") old new) := by
  refine ⟨rfl, ?_, ?_, ?_⟩
  · unfold ApplyStrategy
    rw [if_neg (by decide), if_pos rfl]
  · unfold ApplyStrategy
    rw [if_neg (by decide), if_neg (by decide), if_pos rfl]
  · intro s h1 h2 h3
    conv_lhs => unfold ApplyStrategy
    rw [if_neg h1, if_neg h2, if_neg h3]
    unfold ApplyStrategy
    rw [if_pos rfl]

/-- C8 witness: an unrecognized strategy tag behaves as replace on
concrete content. -/
theorem applyStrategy_spec_witness :
    ApplyStrategy (gstr "invalid") (gstr "old") (gstr "new") =
      ApplyStrategy (gstr "replace") (gstr "old") (gstr "new") :=
  (applyStrategy_spec (gstr "old") (gstr "new")).2.2.2 (gstr "invalid")
    (by decide) (by decide) (by decide)

/-- C10: `replacePlaceholderBlock` returns the content unchanged
whenever the opening tag or the closing tag does not occur in it; a
substitution happens only with both tags present. -/
theorem replacePlaceholderBlock_unchanged (content openTag closeTag repl : GoString)
    (h : goContains content openTag = false ∨ goContains content closeTag = false) :
    replacePlaceholderBlock content openTag closeTag repl = content := by
  unfold replacePlaceholderBlock
  cases ho : goIndex content openTag with
  | none => rfl
  | some i =>
    cases hc : goIndex content closeTag with
    | none => rfl
    | some j =>
      exfalso
      simp [goContains, ho, hc] at h

/-- C10 witness: a missing closing tag leaves concrete content
untouched. -/
theorem replacePlaceholderBlock_unchanged_witness :
    replacePlaceholderBlock (gstr "a<t>b") (gstr "<t>") (gstr "</t>") (gstr "R") =
      gstr "a<t>b" :=
  replacePlaceholderBlock_unchanged (gstr "a<t>b") (gstr "<t>") (gstr "</t>") (gstr "R")
    (Or.inr (by decide))

/-- C7: after one standard-mode metadata merge step, the accumulator
metadata priority equals the incoming priority exactly when the title
branch fired (accumulator title empty or incoming priority outranks or
ties, and incoming title non-empty); in every other case, including the
merging of description, version, language and extends, the priority is
left unchanged — and the title is replaced under exactly the same
condition. -/
theorem mergeMetadata_priority_carrier (result incoming : Config) :
    ((PriorityMerger.mergeMetadata result incoming).metadata.priority =
      if (result.metadata.title = [] ∨
          incoming.metadata.priority.TakesPrecedenceOverOrEqual
            result.metadata.priority = true) ∧ incoming.metadata.title ≠ [] then
        incoming.metadata.priority
      else result.metadata.priority) ∧
    ((PriorityMerger.mergeMetadata result incoming).metadata.title =
      if (result.metadata.title = [] ∨
          incoming.metadata.priority.TakesPrecedenceOverOrEqual
            result.metadata.priority = true) ∧ incoming.metadata.title ≠ [] then
        incoming.metadata.title
      else result.metadata.title) := by
  have hd : ∀ m im : Metadata, ((PriorityMerger.descriptionStep m im).priority = m.priority)
      ∧ ((PriorityMerger.descriptionStep m im).title = m.title) := by
    intro m im
    unfold PriorityMerger.descriptionStep
    split <;> exact ⟨rfl, rfl⟩
  have hv : ∀ m im : Metadata, ((PriorityMerger.versionStep m im).priority = m.priority)
      ∧ ((PriorityMerger.versionStep m im).title = m.title) := by
    intro m im
    unfold PriorityMerger.versionStep
    split <;> exact ⟨rfl, rfl⟩
  have hl : ∀ m im : Metadata, ((PriorityMerger.languageStep m im).priority = m.priority)
      ∧ ((PriorityMerger.languageStep m im).title = m.title) := by
    intro m im
    unfold PriorityMerger.languageStep
    split <;> exact ⟨rfl, rfl⟩
  have he : ∀ m im : Metadata, ((PriorityMerger.extendsStep m im).priority = m.priority)
      ∧ ((PriorityMerger.extendsStep m im).title = m.title) := by
    intro m im
    unfold PriorityMerger.extendsStep
    split <;> exact ⟨rfl, rfl⟩
  have ht : ∀ m im : Metadata, (PriorityMerger.titleStep m im).priority =
      (if (m.title = [] ∨ im.priority.TakesPrecedenceOverOrEqual m.priority = true)
        ∧ im.title ≠ [] then im.priority else m.priority) ∧
      (PriorityMerger.titleStep m im).title =
      (if (m.title = [] ∨ im.priority.TakesPrecedenceOverOrEqual m.priority = true)
        ∧ im.title ≠ [] then im.title else m.title) := by
    intro m im
    unfold PriorityMerger.titleStep
    split <;> simp_all
  show ((PriorityMerger.extendsStep _ _).priority = _) ∧ ((PriorityMerger.extendsStep _ _).title = _)
  rw [(he _ _).1, (he _ _).2, (hl _ _).1, (hl _ _).2, (hv _ _).1, (hv _ _).2,
    (hd _ _).1, (hd _ _).2, (ht _ _).1, (ht _ _).2]
  exact ⟨rfl, rfl⟩

end CM
